import Mathlib

/-!
Shallow embedding of the geometric/numeric core of `src/entrada.js`:
the geometry kernel (lines 14-23), the vertex locator (lines 25-68) and
the weight state with its rebalancing algorithm (lines 109-129, 175-176).
All JS numbers are modelled as rationals; division by zero follows the
Lean convention q / 0 = 0 (the JS source divides by zero only in states
discussed explicitly where it matters).
-/

namespace Entrada

/-- Geometry kernel, line 14: twice the signed area of the triangle
(a1,a2)-(b1,b2)-(c1,c2); in the source the parameters are named ax ay bx by cx cy. -/
def area (a1 a2 b1 b2 c1 c2 : ℚ) : ℚ :=
  (b1 - a1) * (c2 - a2) - (c1 - a1) * (b2 - a2)

/-- Lines 15-16: barycentric coordinates of the point (px,py) with respect to
the triangle A,B,C; the third weight is 1 - w1 - w2 by construction. -/
def barycentric (px py : ℚ) (A B C : ℚ × ℚ) : ℚ × ℚ × ℚ :=
  let d := area A.1 A.2 B.1 B.2 C.1 C.2
  let w1 := area px py B.1 B.2 C.1 C.2 / d
  let w2 := area px py C.1 C.2 A.1 A.2 / d
  (w1, w2, 1 - w1 - w2)

/-- Line 17: the point-in-triangle test on barycentric weights; the source
reads w[0]>=t && w[1]>=t && w[2]>=t with default tolerance t = 1e-6. -/
def inside (w : ℚ × ℚ × ℚ) (t : ℚ) : Bool :=
  t ≤ w.1 ∧ t ≤ w.2.1 ∧ t ≤ w.2.2

/-- Default tolerance of inside, line 17 (t = 1e-6). -/
def insideTol : ℚ := 1 / 1000000

/-- Line 18: normalize three values to sum to 100; the sum used as denominator
is guarded below by 1e-12 (Math.max(r+g+b, 1e-12)). -/
def norm3p (r g b : ℚ) : ℚ × ℚ × ℚ :=
  let s := max (r + g + b) (1 / 1000000000000)
  (r / s * 100, g / s * 100, b / s * 100)

/-- Line 19: clamp a percentage to the closed interval [0, 100]. -/
def clamp01p (v : ℚ) : ℚ := max 0 (min 100 v)

/-- The three semantic channels R, G, B of the percentage fields. -/
inductive Channel
  | R
  | G
  | B
deriving DecidableEq

/-- Common core of the three branches of rebalance (lines 122-127): given the
clamped new value nv of the focus channel and the two normalized non-focus
values o1 and o2, scale them by k = rem ? (100-nv)/rem : 0.5, then apply the
residual fix-up, which multiplies only the non-focus channels by 100/tot when
the total deviates from 100 by more than 0.001; the focus channel stays nv
throughout. Returns the two updated non-focus values. -/
def rebalAux (nv o1 o2 : ℚ) : ℚ × ℚ :=
  let rem := o1 + o2
  let k := if rem = 0 then 1 / 2 else (100 - nv) / rem
  let o1' := o1 * k
  let o2' := o2 * k
  let tot := nv + o1' + o2'
  if 1 / 1000 < |tot - 100| then (o1' * (100 / tot), o2' * (100 / tot))
  else (o1', o2')

/-- Lines 119-129: the rebalance computation on the three field values read
back from the inputs, producing the percentage triple that is then published
through setPerc. -/
def rebalanceCalc (focus : Channel) (newVal : ℚ) (r0 g0 b0 : ℚ) : ℚ × ℚ × ℚ :=
  let n := norm3p r0 g0 b0
  let nv := clamp01p newVal
  match focus with
  | Channel.R => let p := rebalAux nv n.2.1 n.2.2; (nv, p.1, p.2)
  | Channel.G => let p := rebalAux nv n.1 n.2.2; (p.1, nv, p.2)
  | Channel.B => let p := rebalAux nv n.1 n.2.1; (p.1, p.2, nv)

/-- JS toFixed(2) followed by parseFloat: setPerc writes r.toFixed(2) into the
field (line 116) and rebalance later reads it back with parseFloat (line 120),
so the field round-trips through rounding to two decimals. -/
def round2 (x : ℚ) : ℚ := ((round (x * 100) : ℤ) : ℚ) / 100

/-- The mutable state of the widget: the three percentage input fields (as the
rational value parseFloat reads back) and the stored rgb triple (line 109). -/
structure WState where
  fieldR : ℚ
  fieldG : ℚ
  fieldB : ℚ
  rgbR : ℚ
  rgbG : ℚ
  rgbB : ℚ
deriving DecidableEq

/-- Lines 115-118: setPerc writes the three percentages into the input fields
rounded to two decimals (toFixed(2)) and stores rgb = [r/100, g/100, b/100]. -/
def setPerc (r g b : ℚ) : WState :=
  { fieldR := round2 r, fieldG := round2 g, fieldB := round2 b,
    rgbR := r / 100, rgbG := g / 100, rgbB := b / 100 }

/-- Lines 119-129: a field edit (setFromFieldEdit): rebalance reads the current
field values, computes the new percentages and publishes them via setPerc. -/
def rebalance (focus : Channel) (newVal : ℚ) (st : WState) : WState :=
  let o := rebalanceCalc focus newVal st.fieldR st.fieldG st.fieldB
  setPerc o.1 o.2.1 o.2.2

/-- Line 176: getRGB returns the stored rgb triple (the current snapshot). -/
def getRGB (st : WState) : ℚ × ℚ × ℚ := (st.rgbR, st.rgbG, st.rgbB)

/-- Line 175: the initial state setPerc(33.3333, 33.3333, 33.3333). -/
def initState : WState := setPerc (333333 / 10000) (333333 / 10000) (333333 / 10000)

/-- The value of channel c in a percentage triple. -/
def chanVal (c : Channel) (t : ℚ × ℚ × ℚ) : ℚ :=
  match c with
  | Channel.R => t.1
  | Channel.G => t.2.1
  | Channel.B => t.2.2

/-- Lines 111-113: drawFromRGB re-derives the screen point from barycentric
weights as the weighted combination wt*top + wl*left + wr*right of the three
vertices (componentwise). -/
def recombine (wts : ℚ × ℚ × ℚ) (A B C : ℚ × ℚ) : ℚ × ℚ :=
  (wts.1 * A.1 + wts.2.1 * B.1 + wts.2.2 * C.1,
   wts.1 * A.2 + wts.2.1 * B.2 + wts.2.2 * C.2)

/-- The axis ('x' or 'y') used as the key of the extremal search. -/
inductive Axis
  | x
  | y
deriving DecidableEq

/-- Reading p[key] for key in {'x','y'}. -/
def getKey (key : Axis) (p : ℕ × ℕ) : ℕ :=
  match key with
  | Axis.x => p.1
  | Axis.y => p.2

/-- Lines 32-37: the scan collecting every pixel coordinate whose alpha is at
or above the threshold TH = 30; data models the RGBA buffer, the alpha of
(x,y) being data ((y*w+x)*4+3). Scan order: rows top to bottom, within a row
left to right, as in the source's nested loops. -/
def pixelPts (data : ℕ → ℕ) (w h : ℕ) : List (ℕ × ℕ) :=
  (List.range h).flatMap fun y =>
    (List.range w).filterMap fun x =>
      if 30 ≤ data ((y * w + x) * 4 + 3) then some (x, y) else none

/-- Line 54: Math.min(...vs) resp. Math.max(...vs) over the key values of the
collected points; 0 for the empty list, which the call site never produces
(the source's own dead-code guards at lines 42-53 return fallbacks first). -/
def extVal (mn : Bool) (key : Axis) (pts : List (ℕ × ℕ)) : ℕ :=
  match pts with
  | [] => 0
  | p0 :: rest =>
    rest.foldl
      (fun a p => if mn then Nat.min a (getKey key p) else Nat.max a (getKey key p))
      (getKey key p0)

/-- Line 55: the band sel of collected points whose key value lies within
band = 3 of the extremal value ex. -/
def band (key : Axis) (mn : Bool) (pts : List (ℕ × ℕ)) : List (ℕ × ℕ) :=
  pts.filter fun p => decide (|(getKey key p : ℤ) - (extVal mn key pts : ℤ)| ≤ 3)

/-- Line 62: the mean x-coordinate cx of a selection of points. -/
def bandMeanX (sel : List (ℕ × ℕ)) : ℚ :=
  (sel.map fun p => (p.1 : ℚ)).sum / (sel.length : ℚ)

/-- Lines 41-66: the extremal-point selection. Find the extremal key value ex
over the collected points, keep the band of points with |key - ex| <= 3, and
pick: for key y, the band point whose x is closest to the band's mean x (ties
resolved to the earliest point, as JS reduce keeps the accumulator unless
strictly closer); for key x, the band point with the largest y. The empty-pts
fallback (lines 42-47) and the empty-band closest-point fallback (lines 56-60)
of the source are reproduced even though the call site makes them dead. -/
def extreme (w h : ℕ) (pts : List (ℕ × ℕ)) (key : Axis) (mn : Bool) : ℚ × ℚ :=
  match pts with
  | [] =>
    if key = Axis.y then ((w : ℚ) / 2, 0)
    else if mn then (0, (h : ℚ) - 1)
    else ((w : ℚ) - 1, (h : ℚ) - 1)
  | p0 :: rest =>
    let ex := extVal mn key (p0 :: rest)
    match band key mn (p0 :: rest) with
    | [] =>
      let closest := (p0 :: rest).foldl
        (fun b p =>
          if |(getKey key p : ℤ) - (ex : ℤ)| < |(getKey key b : ℤ) - (ex : ℤ)| then p else b)
        p0
      ((closest.1 : ℚ), (closest.2 : ℚ))
    | s0 :: srest =>
      if key = Axis.y then
        let cx : ℚ := bandMeanX (s0 :: srest)
        let pick := (s0 :: srest).foldl
          (fun b p => if |(p.1 : ℚ) - cx| < |(b.1 : ℚ) - cx| then p else b) s0
        ((pick.1 : ℚ), (pick.2 : ℚ))
      else
        let pick := (s0 :: srest).foldl (fun b p => if b.2 < p.2 then p else b) s0
        ((pick.1 : ℚ), (pick.2 : ℚ))

/-- A triangle given by its three role-tagged vertices. -/
structure Tri where
  top : ℚ × ℚ
  left : ℚ × ℚ
  right : ℚ × ℚ
deriving DecidableEq

/-- Lines 25-68: detectVerticesByAlpha (the vertex locator, locateVertices):
collect the above-threshold pixels; if there are none, return the canonical
fallback triangle spanning the image bounds (line 39); otherwise pick the
three extremal points. -/
def detectVerticesByAlpha (data : ℕ → ℕ) (w h : ℕ) : Tri :=
  let pts := pixelPts data w h
  if pts = [] then
    { top := ((w : ℚ) / 2, 0), left := (0, (h : ℚ) - 1), right := ((w : ℚ) - 1, (h : ℚ) - 1) }
  else
    { top := extreme w h pts Axis.y true
      left := extreme w h pts Axis.x true
      right := extreme w h pts Axis.x false }

/-! ## Elementary facts about the rebalance building blocks -/

theorem clamp01p_nonneg (v : ℚ) : 0 ≤ clamp01p v := le_max_left 0 _

theorem clamp01p_le (v : ℚ) : clamp01p v ≤ 100 :=
  max_le (by norm_num) (min_le_left _ _)

theorem norm3p_nonneg {r g b : ℚ} (hr : 0 ≤ r) (hg : 0 ≤ g) (hb : 0 ≤ b) :
    0 ≤ (norm3p r g b).1 ∧ 0 ≤ (norm3p r g b).2.1 ∧ 0 ≤ (norm3p r g b).2.2 := by
  have hs : (0:ℚ) ≤ max (r + g + b) (1 / 1000000000000) :=
    le_trans (by norm_num) (le_max_right _ _)
  unfold norm3p
  exact ⟨mul_nonneg (div_nonneg hr hs) (by norm_num),
         mul_nonneg (div_nonneg hg hs) (by norm_num),
         mul_nonneg (div_nonneg hb hs) (by norm_num)⟩

theorem norm3p_sum_eq (r g b : ℚ) (h : r + g + b = 100) : norm3p r g b = (r, g, b) := by
  unfold norm3p
  rw [h]
  rw [max_eq_left (by norm_num : (1:ℚ)/1000000000000 ≤ 100)]
  norm_num

theorem norm3p_zero1 (g b : ℚ) : (norm3p 0 g b).1 = 0 := by unfold norm3p; norm_num

theorem norm3p_zero2 (r b : ℚ) : (norm3p r 0 b).2.1 = 0 := by unfold norm3p; norm_num

theorem norm3p_zero3 (r g : ℚ) : (norm3p r g 0).2.2 = 0 := by unfold norm3p; norm_num

theorem rebalAux_zero (nv : ℚ) : rebalAux nv 0 0 = (0, 0) := by
  unfold rebalAux
  norm_num

theorem rebalAux_of_rem_ne (nv o1 o2 : ℚ) (hrem : o1 + o2 ≠ 0) :
    rebalAux nv o1 o2
      = (o1 * ((100 - nv) / (o1 + o2)), o2 * ((100 - nv) / (o1 + o2))) := by
  unfold rebalAux
  simp only [if_neg hrem]
  have h0 : nv + o1 * ((100 - nv) / (o1 + o2)) + o2 * ((100 - nv) / (o1 + o2)) - 100 = 0 := by
    field_simp
    ring
  rw [h0]
  norm_num

theorem rebalAux_fixpoint (nv a b2 : ℚ) (hab : a + b2 = 100 - nv) (hne : a + b2 ≠ 0) :
    rebalAux nv a b2 = (a, b2) := by
  rw [rebalAux_of_rem_ne _ _ _ hne, hab]
  rw [div_self (hab ▸ hne)]
  simp

theorem rebalAux_cases (nv o1 o2 : ℚ) (h1 : 0 ≤ o1) (h2 : 0 ≤ o2) (hnv : nv ≤ 100) :
    0 ≤ (rebalAux nv o1 o2).1 ∧ 0 ≤ (rebalAux nv o1 o2).2 ∧
    ((rebalAux nv o1 o2).1 + (rebalAux nv o1 o2).2 = 100 - nv ∨
      ((rebalAux nv o1 o2).1 = 0 ∧ (rebalAux nv o1 o2).2 = 0)) := by
  by_cases hrem : o1 + o2 = 0
  · have ho1 : o1 = 0 := by linarith
    have ho2 : o2 = 0 := by linarith
    rw [ho1, ho2, rebalAux_zero]
    exact ⟨le_refl 0, le_refl 0, Or.inr ⟨rfl, rfl⟩⟩
  · have hpos : 0 < o1 + o2 := lt_of_le_of_ne (by linarith) (Ne.symm hrem)
    rw [rebalAux_of_rem_ne _ _ _ hrem]
    have hk : 0 ≤ (100 - nv) / (o1 + o2) := div_nonneg (by linarith) hpos.le
    refine ⟨mul_nonneg h1 hk, mul_nonneg h2 hk, Or.inl ?_⟩
    field_simp
    ring

theorem second_call_R (v A B : ℚ) (hA : 0 ≤ A) (hB : 0 ≤ B)
    (h : A + B = 100 - clamp01p v ∨ (A = 0 ∧ B = 0)) :
    rebalanceCalc Channel.R v (clamp01p v) A B = (clamp01p v, A, B) := by
  show (clamp01p v,
    (rebalAux (clamp01p v) (norm3p (clamp01p v) A B).2.1 (norm3p (clamp01p v) A B).2.2).1,
    (rebalAux (clamp01p v) (norm3p (clamp01p v) A B).2.1 (norm3p (clamp01p v) A B).2.2).2)
    = (clamp01p v, A, B)
  by_cases hzero : A = 0 ∧ B = 0
  · rw [hzero.1, hzero.2, norm3p_zero2, norm3p_zero3, rebalAux_zero]
  · have hsum : A + B = 100 - clamp01p v := by
      rcases h with h | h
      · exact h
      · exact absurd h hzero
    have hne : A + B ≠ 0 := by
      intro hc
      exact hzero ⟨by linarith, by linarith⟩
    have hs : clamp01p v + A + B = 100 := by linarith
    rw [norm3p_sum_eq _ _ _ hs]
    rw [show ((clamp01p v, A, B) : ℚ × ℚ × ℚ).2.1 = A from rfl,
        show ((clamp01p v, A, B) : ℚ × ℚ × ℚ).2.2 = B from rfl]
    rw [rebalAux_fixpoint _ _ _ hsum hne]

theorem second_call_G (v A B : ℚ) (hA : 0 ≤ A) (hB : 0 ≤ B)
    (h : A + B = 100 - clamp01p v ∨ (A = 0 ∧ B = 0)) :
    rebalanceCalc Channel.G v A (clamp01p v) B = (A, clamp01p v, B) := by
  show ((rebalAux (clamp01p v) (norm3p A (clamp01p v) B).1 (norm3p A (clamp01p v) B).2.2).1,
    clamp01p v,
    (rebalAux (clamp01p v) (norm3p A (clamp01p v) B).1 (norm3p A (clamp01p v) B).2.2).2)
    = (A, clamp01p v, B)
  by_cases hzero : A = 0 ∧ B = 0
  · rw [hzero.1, hzero.2, norm3p_zero1, norm3p_zero3, rebalAux_zero]
  · have hsum : A + B = 100 - clamp01p v := by
      rcases h with h | h
      · exact h
      · exact absurd h hzero
    have hne : A + B ≠ 0 := by
      intro hc
      exact hzero ⟨by linarith, by linarith⟩
    have hs : A + clamp01p v + B = 100 := by linarith
    rw [norm3p_sum_eq _ _ _ hs]
    rw [show ((A, clamp01p v, B) : ℚ × ℚ × ℚ).1 = A from rfl,
        show ((A, clamp01p v, B) : ℚ × ℚ × ℚ).2.2 = B from rfl]
    rw [rebalAux_fixpoint _ _ _ hsum hne]

theorem second_call_B (v A B : ℚ) (hA : 0 ≤ A) (hB : 0 ≤ B)
    (h : A + B = 100 - clamp01p v ∨ (A = 0 ∧ B = 0)) :
    rebalanceCalc Channel.B v A B (clamp01p v) = (A, B, clamp01p v) := by
  show ((rebalAux (clamp01p v) (norm3p A B (clamp01p v)).1 (norm3p A B (clamp01p v)).2.1).1,
    (rebalAux (clamp01p v) (norm3p A B (clamp01p v)).1 (norm3p A B (clamp01p v)).2.1).2,
    clamp01p v)
    = (A, B, clamp01p v)
  by_cases hzero : A = 0 ∧ B = 0
  · rw [hzero.1, hzero.2, norm3p_zero1, norm3p_zero2, rebalAux_zero]
  · have hsum : A + B = 100 - clamp01p v := by
      rcases h with h | h
      · exact h
      · exact absurd h hzero
    have hne : A + B ≠ 0 := by
      intro hc
      exact hzero ⟨by linarith, by linarith⟩
    have hs : A + B + clamp01p v = 100 := by linarith
    rw [norm3p_sum_eq _ _ _ hs]
    rw [show ((A, B, clamp01p v) : ℚ × ℚ × ℚ).1 = A from rfl,
        show ((A, B, clamp01p v) : ℚ × ℚ × ℚ).2.1 = B from rfl]
    rw [rebalAux_fixpoint _ _ _ hsum hne]

/-! ## Helper lemmas for the vertex locator: JS reduce as foldl arg-min/arg-max -/

theorem foldl_minBy_mem {α β : Type} [LinearOrder β] (f : α → β) (l : List α) (a : α) :
    l.foldl (fun b p => if f p < f b then p else b) a ∈ a :: l := by
  induction l generalizing a with
  | nil => simp
  | cons x xs ih =>
    simp only [List.foldl_cons]
    by_cases h : f x < f a
    · rw [if_pos h]
      exact List.mem_cons_of_mem a (ih x)
    · rw [if_neg h]
      rcases List.mem_cons.mp (ih a) with h1 | h1
      · rw [h1]
        exact List.mem_cons_self a (x :: xs)
      · exact List.mem_cons_of_mem a (List.mem_cons_of_mem x h1)

theorem foldl_minBy_le {α β : Type} [LinearOrder β] (f : α → β) (l : List α) (a : α) :
    f (l.foldl (fun b p => if f p < f b then p else b) a) ≤ f a ∧
    ∀ x ∈ l, f (l.foldl (fun b p => if f p < f b then p else b) a) ≤ f x := by
  induction l generalizing a with
  | nil => simp
  | cons x xs ih =>
    simp only [List.foldl_cons]
    by_cases h : f x < f a
    · rw [if_pos h]
      refine ⟨le_trans (ih x).1 h.le, ?_⟩
      intro q hq
      rcases List.mem_cons.mp hq with h1 | h1
      · exact h1 ▸ (ih x).1
      · exact (ih x).2 q h1
    · rw [if_neg h]
      refine ⟨(ih a).1, ?_⟩
      intro q hq
      rcases List.mem_cons.mp hq with h1 | h1
      · exact h1 ▸ le_trans (ih a).1 (not_lt.mp h)
      · exact (ih a).2 q h1

theorem foldl_maxBy_mem {α β : Type} [LinearOrder β] (g : α → β) (l : List α) (a : α) :
    l.foldl (fun b p => if g b < g p then p else b) a ∈ a :: l := by
  induction l generalizing a with
  | nil => simp
  | cons x xs ih =>
    simp only [List.foldl_cons]
    by_cases h : g a < g x
    · rw [if_pos h]
      exact List.mem_cons_of_mem a (ih x)
    · rw [if_neg h]
      rcases List.mem_cons.mp (ih a) with h1 | h1
      · rw [h1]
        exact List.mem_cons_self a (x :: xs)
      · exact List.mem_cons_of_mem a (List.mem_cons_of_mem x h1)

theorem foldl_maxBy_ge {α β : Type} [LinearOrder β] (g : α → β) (l : List α) (a : α) :
    g a ≤ g (l.foldl (fun b p => if g b < g p then p else b) a) ∧
    ∀ x ∈ l, g x ≤ g (l.foldl (fun b p => if g b < g p then p else b) a) := by
  induction l generalizing a with
  | nil => simp
  | cons x xs ih =>
    simp only [List.foldl_cons]
    by_cases h : g a < g x
    · rw [if_pos h]
      refine ⟨le_trans h.le (ih x).1, ?_⟩
      intro q hq
      rcases List.mem_cons.mp hq with h1 | h1
      · exact h1 ▸ (ih x).1
      · exact (ih x).2 q h1
    · rw [if_neg h]
      refine ⟨(ih a).1, ?_⟩
      intro q hq
      rcases List.mem_cons.mp hq with h1 | h1
      · exact h1 ▸ le_trans (not_lt.mp h) (ih a).1
      · exact (ih a).2 q h1

theorem foldl_natMin_le {α : Type} (f : α → ℕ) (l : List α) (v : ℕ) :
    (l.foldl (fun a p => Nat.min a (f p)) v ≤ v) ∧
    ∀ x ∈ l, l.foldl (fun a p => Nat.min a (f p)) v ≤ f x := by
  induction l generalizing v with
  | nil => simp
  | cons x xs ih =>
    simp only [List.foldl_cons]
    refine ⟨le_trans (ih _).1 (Nat.min_le_left _ _), ?_⟩
    intro q hq
    rcases List.mem_cons.mp hq with h1 | h1
    · exact h1 ▸ le_trans (ih _).1 (Nat.min_le_right _ _)
    · exact (ih _).2 q h1

theorem foldl_natMin_attained {α : Type} (f : α → ℕ) (l : List α) (v : ℕ) :
    l.foldl (fun a p => Nat.min a (f p)) v = v ∨
    ∃ x ∈ l, l.foldl (fun a p => Nat.min a (f p)) v = f x := by
  induction l generalizing v with
  | nil => simp
  | cons x xs ih =>
    simp only [List.foldl_cons]
    rcases ih (Nat.min v (f x)) with h | ⟨q, hq, hqe⟩
    · rcases min_choice v (f x) with hm | hm
      · exact Or.inl (h.trans hm)
      · exact Or.inr ⟨x, List.mem_cons_self x xs, h.trans hm⟩
    · exact Or.inr ⟨q, List.mem_cons_of_mem x hq, hqe⟩

theorem foldl_natMax_ge {α : Type} (f : α → ℕ) (l : List α) (v : ℕ) :
    (v ≤ l.foldl (fun a p => Nat.max a (f p)) v) ∧
    ∀ x ∈ l, f x ≤ l.foldl (fun a p => Nat.max a (f p)) v := by
  induction l generalizing v with
  | nil => simp
  | cons x xs ih =>
    simp only [List.foldl_cons]
    refine ⟨le_trans (Nat.le_max_left _ _) (ih _).1, ?_⟩
    intro q hq
    rcases List.mem_cons.mp hq with h1 | h1
    · exact h1 ▸ le_trans (Nat.le_max_right _ _) (ih _).1
    · exact (ih _).2 q h1

theorem foldl_natMax_attained {α : Type} (f : α → ℕ) (l : List α) (v : ℕ) :
    l.foldl (fun a p => Nat.max a (f p)) v = v ∨
    ∃ x ∈ l, l.foldl (fun a p => Nat.max a (f p)) v = f x := by
  induction l generalizing v with
  | nil => simp
  | cons x xs ih =>
    simp only [List.foldl_cons]
    rcases ih (Nat.max v (f x)) with h | ⟨q, hq, hqe⟩
    · rcases max_choice v (f x) with hm | hm
      · exact Or.inl (h.trans hm)
      · exact Or.inr ⟨x, List.mem_cons_self x xs, h.trans hm⟩
    · exact Or.inr ⟨q, List.mem_cons_of_mem x hq, hqe⟩

/-! ## Properties of the extremal value, the band and the selection -/

theorem extVal_min_eq (key : Axis) (p0 : ℕ × ℕ) (rest : List (ℕ × ℕ)) :
    extVal true key (p0 :: rest)
      = rest.foldl (fun a p => Nat.min a (getKey key p)) (getKey key p0) := rfl

theorem extVal_max_eq (key : Axis) (p0 : ℕ × ℕ) (rest : List (ℕ × ℕ)) :
    extVal false key (p0 :: rest)
      = rest.foldl (fun a p => Nat.max a (getKey key p)) (getKey key p0) := rfl

theorem extVal_min_bound (key : Axis) (p0 : ℕ × ℕ) (rest : List (ℕ × ℕ)) :
    ∀ p ∈ p0 :: rest, extVal true key (p0 :: rest) ≤ getKey key p := by
  intro p hp
  rw [extVal_min_eq]
  rcases List.mem_cons.mp hp with h1 | h1
  · rw [h1]
    exact (foldl_natMin_le (getKey key) rest (getKey key p0)).1
  · exact (foldl_natMin_le (getKey key) rest (getKey key p0)).2 p h1

theorem extVal_max_bound (key : Axis) (p0 : ℕ × ℕ) (rest : List (ℕ × ℕ)) :
    ∀ p ∈ p0 :: rest, getKey key p ≤ extVal false key (p0 :: rest) := by
  intro p hp
  rw [extVal_max_eq]
  rcases List.mem_cons.mp hp with h1 | h1
  · rw [h1]
    exact (foldl_natMax_ge (getKey key) rest (getKey key p0)).1
  · exact (foldl_natMax_ge (getKey key) rest (getKey key p0)).2 p h1

theorem extVal_attained (mn : Bool) (key : Axis) (p0 : ℕ × ℕ) (rest : List (ℕ × ℕ)) :
    ∃ p ∈ p0 :: rest, extVal mn key (p0 :: rest) = getKey key p := by
  cases mn with
  | true =>
    rcases foldl_natMin_attained (getKey key) rest (getKey key p0) with h | ⟨q, hq, hqe⟩
    · exact ⟨p0, List.mem_cons_self _ _, h⟩
    · exact ⟨q, List.mem_cons_of_mem _ hq, hqe⟩
  | false =>
    rcases foldl_natMax_attained (getKey key) rest (getKey key p0) with h | ⟨q, hq, hqe⟩
    · exact ⟨p0, List.mem_cons_self _ _, h⟩
    · exact ⟨q, List.mem_cons_of_mem _ hq, hqe⟩

theorem band_ne_nil (key : Axis) (mn : Bool) (p0 : ℕ × ℕ) (rest : List (ℕ × ℕ)) :
    band key mn (p0 :: rest) ≠ [] := by
  obtain ⟨p, hp, hpe⟩ := extVal_attained mn key p0 rest
  intro hc
  have hmem : p ∈ band key mn (p0 :: rest) := by
    unfold band
    rw [List.mem_filter]
    refine ⟨hp, ?_⟩
    rw [decide_eq_true_eq, hpe]
    simp
  rw [hc] at hmem
  exact absurd hmem (List.not_mem_nil p)

theorem band_subset (key : Axis) (mn : Bool) (pts : List (ℕ × ℕ)) :
    ∀ p ∈ band key mn pts, p ∈ pts := by
  intro p hp
  exact (List.mem_filter.mp hp).1

theorem extreme_y_spec (w h : ℕ) (p0 : ℕ × ℕ) (rest : List (ℕ × ℕ)) :
    ∃ p, p ∈ band Axis.y true (p0 :: rest) ∧
      extreme w h (p0 :: rest) Axis.y true = ((p.1 : ℚ), (p.2 : ℚ)) ∧
      ∀ q ∈ band Axis.y true (p0 :: rest),
        |(p.1 : ℚ) - bandMeanX (band Axis.y true (p0 :: rest))|
          ≤ |(q.1 : ℚ) - bandMeanX (band Axis.y true (p0 :: rest))| := by
  obtain ⟨s0, srest, hband⟩ := List.exists_cons_of_ne_nil (band_ne_nil Axis.y true p0 rest)
  have hext : extreme w h (p0 :: rest) Axis.y true
      = ((((s0 :: srest).foldl
            (fun b p => if |(p.1 : ℚ) - bandMeanX (s0 :: srest)| <
                |(b.1 : ℚ) - bandMeanX (s0 :: srest)| then p else b) s0).1 : ℚ),
         (((s0 :: srest).foldl
            (fun b p => if |(p.1 : ℚ) - bandMeanX (s0 :: srest)| <
                |(b.1 : ℚ) - bandMeanX (s0 :: srest)| then p else b) s0).2 : ℚ)) := by
    simp only [extreme]
    rw [hband]
    rfl
  rw [hband, hext]
  set cx := bandMeanX (s0 :: srest) with hcx
  set pick := (s0 :: srest).foldl
      (fun b p => if |(p.1 : ℚ) - cx| < |(b.1 : ℚ) - cx| then p else b) s0 with hpick
  refine ⟨pick, ?_, rfl, ?_⟩
  · have hm := foldl_minBy_mem (fun p : ℕ × ℕ => |(p.1 : ℚ) - cx|) (s0 :: srest) s0
    rw [← hpick] at hm
    rcases List.mem_cons.mp hm with h1 | h1
    · rw [h1]
      exact List.mem_cons_self _ _
    · exact h1
  · intro q hq
    have hm := (foldl_minBy_le (fun p : ℕ × ℕ => |(p.1 : ℚ) - cx|) (s0 :: srest) s0).2 q hq
    rw [← hpick] at hm
    exact hm

theorem extreme_x_spec (w h : ℕ) (mn : Bool) (p0 : ℕ × ℕ) (rest : List (ℕ × ℕ)) :
    ∃ p, p ∈ band Axis.x mn (p0 :: rest) ∧
      extreme w h (p0 :: rest) Axis.x mn = ((p.1 : ℚ), (p.2 : ℚ)) ∧
      ∀ q ∈ band Axis.x mn (p0 :: rest), q.2 ≤ p.2 := by
  obtain ⟨s0, srest, hband⟩ := List.exists_cons_of_ne_nil (band_ne_nil Axis.x mn p0 rest)
  have hext : extreme w h (p0 :: rest) Axis.x mn
      = ((((s0 :: srest).foldl (fun b p => if b.2 < p.2 then p else b) s0).1 : ℚ),
         (((s0 :: srest).foldl (fun b p => if b.2 < p.2 then p else b) s0).2 : ℚ)) := by
    simp only [extreme]
    rw [hband]
    rfl
  rw [hband, hext]
  set pick := (s0 :: srest).foldl (fun b p => if b.2 < p.2 then p else b) s0 with hpick
  refine ⟨pick, ?_, rfl, ?_⟩
  · have hm := foldl_maxBy_mem (fun p : ℕ × ℕ => p.2) (s0 :: srest) s0
    rw [← hpick] at hm
    rcases List.mem_cons.mp hm with h1 | h1
    · rw [h1]
      exact List.mem_cons_self _ _
    · exact h1
  · intro q hq
    have hm := (foldl_maxBy_ge (fun p : ℕ × ℕ => p.2) (s0 :: srest) s0).2 q hq
    rw [← hpick] at hm
    exact hm

theorem pixelPts_nil (data : ℕ → ℕ) (w h : ℕ)
    (halpha : ∀ x y, x < w → y < h → data ((y * w + x) * 4 + 3) < 30) :
    pixelPts data w h = [] := by
  unfold pixelPts
  rw [List.flatMap_eq_nil_iff]
  intro y hy
  rw [List.mem_range] at hy
  rw [List.filterMap_eq_nil_iff]
  intro x hx
  rw [List.mem_range] at hx
  rw [if_neg (not_le.mpr (halpha x y hx hy))]

/-! ## Claim theorems -/

/-- C10: norm3p applied to the all-zero input (0, 0, 0) returns exactly
(0, 0, 0): the epsilon guard Math.max(sum, 1e-12) keeps the division defined
(no division by zero), and the returned triple sums to 0, not to 100. -/
theorem norm3p_zero_input :
    norm3p 0 0 0 = (0, 0, 0) ∧
    (norm3p 0 0 0).1 + (norm3p 0 0 0).2.1 + (norm3p 0 0 0).2.2 = 0 ∧
    (norm3p 0 0 0).1 + (norm3p 0 0 0).2.1 + (norm3p 0 0 0).2.2 ≠ 100 := by
  norm_num [norm3p]

/-- C4: for every prior field state and every value v, the triple published by
setFromFieldEdit has its focus channel equal to clamp(v, 0, 100) exactly: the
residual fix-up multiplies only the two non-focus channels, never the focus
one. -/
theorem rebalance_focus_exact (c : Channel) (v r g b : ℚ) :
    chanVal c (rebalanceCalc c v r g b) = clamp01p v := by
  cases c <;> rfl

/-- C1 (failing input for the sum invariant): from fields (100, 0, 0),
setFromFieldEdit('R', 50) publishes (50, 0, 0): both non-focus channels are
zero, so the k = 0.5 fallback leaves them zero, and the residual fix-up
multiplies those same zeros by 100/tot, so the published sum is 50 — the
sum-to-100 ± 0.001 invariant claimed by the spec is violated. -/
theorem rebalance_sum_invariant_violation :
    rebalanceCalc Channel.R 50 100 0 0 = (50, 0, 0) ∧
    ¬ |(rebalanceCalc Channel.R 50 100 0 0).1 + (rebalanceCalc Channel.R 50 100 0 0).2.1 +
        (rebalanceCalc Channel.R 50 100 0 0).2.2 - 100| ≤ 1 / 1000 := by
  norm_num [rebalanceCalc, rebalAux, norm3p, clamp01p]

/-- C3 (counterexample): starting from the vector {R:0, G:0, B:100},
setFromFieldEdit('R', 50) does not produce (50, 25, 25). -/
theorem rebalance_scenario_R50_counterexample :
    rebalanceCalc Channel.R 50 0 0 100 ≠ (50, 25, 25) := by
  norm_num [rebalanceCalc, rebalAux, norm3p, clamp01p]

/-- C3 (amended): starting from {R:0, G:0, B:100}, setFromFieldEdit('R', 50)
produces R=50, G=0, B=50: rem = g + b = 100 is not zero, so the 0.5/0.5
fallback does not apply; the scale k = (100-50)/100 = 0.5 halves each
non-focus channel, preserving their 0:100 ratio. The same holds through the
full state, where the published rgb is (0.5, 0, 0.5). -/
theorem rebalance_scenario_R50_amended :
    rebalanceCalc Channel.R 50 0 0 100 = (50, 0, 50) ∧
    (norm3p 0 0 100).2.1 + (norm3p 0 0 100).2.2 = 100 ∧
    getRGB (rebalance Channel.R 50 (setPerc 0 0 100)) = (1/2, 0, 1/2) := by
  norm_num [rebalanceCalc, rebalAux, norm3p, clamp01p, getRGB, rebalance, setPerc,
    round2, round_eq]

/-- C2 (counterexample): at the top vertex (50, 0) of the triangle
top (50,0), left (0,100), right (100,100), the barycentric weights are
(1, 0, 0); the claim's predicate (all three weights ≥ -1e-6) holds there, yet
inside returns false, because the source compares w[i] >= +t, not >= -t —
so a vertex (and likewise any edge point) does not count as inside. -/
theorem inside_vertex_counterexample :
    ¬ ((inside (barycentric 50 0 (50, 0) (0, 100) (100, 100)) insideTol = true) ↔
        (-insideTol ≤ (barycentric 50 0 (50, 0) (0, 100) (100, 100)).1 ∧
         -insideTol ≤ (barycentric 50 0 (50, 0) (0, 100) (100, 100)).2.1 ∧
         -insideTol ≤ (barycentric 50 0 (50, 0) (0, 100) (100, 100)).2.2)) := by
  norm_num [inside, insideTol, barycentric, area]

/-- C2 (amended): inside(w, t=1e-6) is true iff all three weights are ≥ +t,
a strict-interior test by margin t: points exactly on an edge or at a vertex
count as outside. For the triangle top (50,0), left (0,100), right (100,100),
inside is true at the centroid (50, 200/3), false at each of the three
vertices, and false at the far-outside point (1000, 1000). -/
theorem inside_strict_characterization :
    (∀ (w : ℚ × ℚ × ℚ) (t : ℚ),
        inside w t = true ↔ (t ≤ w.1 ∧ t ≤ w.2.1 ∧ t ≤ w.2.2)) ∧
    inside (barycentric 50 (200/3) (50, 0) (0, 100) (100, 100)) insideTol = true ∧
    inside (barycentric 50 0 (50, 0) (0, 100) (100, 100)) insideTol = false ∧
    inside (barycentric 0 100 (50, 0) (0, 100) (100, 100)) insideTol = false ∧
    inside (barycentric 100 100 (50, 0) (0, 100) (100, 100)) insideTol = false ∧
    inside (barycentric 1000 1000 (50, 0) (0, 100) (100, 100)) insideTol = false := by
  refine ⟨fun w t => by simp [inside], ?_, ?_, ?_, ?_, ?_⟩ <;>
    norm_num [inside, insideTol, barycentric, area]

/-- C5 (counterexample): at session start (setPerc(33.3333, 33.3333, 33.3333),
line 175), getRGB returns (0.333333, 0.333333, 0.333333): the snapshot's three
values sum to 0.999999, not to 100 within 1e-3 — getRGB publishes the stored
percentages divided by 100. -/
theorem getRGB_sum_counterexample :
    getRGB initState = (333333/1000000, 333333/1000000, 333333/1000000) ∧
    ¬ |(getRGB initState).1 + (getRGB initState).2.1 + (getRGB initState).2.2 - 100|
        ≤ 1 / 1000 := by
  norm_num [getRGB, initState, setPerc, abs_le]

/-- C5 (amended): getRGB is a read-only snapshot of the stored vector, whose
entries are the published percentages divided by 100: after setPerc(r, g, b)
with non-negative percentages summing to 100 within 0.1, the snapshot is
(r/100, g/100, b/100) — three non-negative values summing to 1 (not to 100)
within 1e-3. -/
theorem getRGB_snapshot_amended (r g b : ℚ) (hr : 0 ≤ r) (hg : 0 ≤ g) (hb : 0 ≤ b)
    (hs : |r + g + b - 100| ≤ 1 / 10) :
    getRGB (setPerc r g b) = (r / 100, g / 100, b / 100) ∧
    0 ≤ (getRGB (setPerc r g b)).1 ∧ 0 ≤ (getRGB (setPerc r g b)).2.1 ∧
    0 ≤ (getRGB (setPerc r g b)).2.2 ∧
    |(getRGB (setPerc r g b)).1 + (getRGB (setPerc r g b)).2.1 +
        (getRGB (setPerc r g b)).2.2 - 1| ≤ 1 / 1000 := by
  have h1 : getRGB (setPerc r g b) = (r / 100, g / 100, b / 100) := rfl
  rw [h1]
  refine ⟨rfl, by positivity, by positivity, by positivity, ?_⟩
  have h2 : (r / 100, g / 100, b / 100).1 + (r / 100, g / 100, b / 100).2.1 +
      (r / 100, g / 100, b / 100).2.2 - 1 = (r + g + b - 100) / 100 := by
    show r / 100 + g / 100 + b / 100 - 1 = (r + g + b - 100) / 100
    ring
  rw [h2, abs_div]
  rw [show |(100:ℚ)| = 100 from by norm_num]
  linarith

/-- C5 witness: the amended snapshot theorem applied at the initial
percentages (33.3333, 33.3333, 33.3333). -/
theorem getRGB_snapshot_amended_witness :
    |(333333/10000 : ℚ) + 333333/10000 + 333333/10000 - 100| ≤ 1 / 10 ∧
    getRGB (setPerc (333333/10000) (333333/10000) (333333/10000))
      = (333333/10000/100, 333333/10000/100, 333333/10000/100) :=
  ⟨by norm_num [abs_le],
   (getRGB_snapshot_amended (333333/10000) (333333/10000) (333333/10000)
      (by norm_num) (by norm_num) (by norm_num) (by norm_num [abs_le])).1⟩

/-- C9 (counterexample): from the state with fields (0, 0.01, 99.99),
setFromFieldEdit('R', 40) publishes the vector (40, 0.006, 59.994), stored as
rgb (0.4, 0.00006, 0.59994), but the fields keep only the two-decimal
renderings 0.01 and 59.99 (toFixed(2)); the second identical call re-reads
those rounded fields and publishes (40, 0.01, 59.99), rgb (0.4, 0.0001,
0.5999) — a different WeightVector, so the second call does change state. -/
theorem rebalance_idem_counterexample :
    getRGB (rebalance Channel.R 40 (setPerc 0 (1/100) (9999/100)))
      = (2/5, 6/100000, 59994/100000) ∧
    getRGB (rebalance Channel.R 40 (rebalance Channel.R 40 (setPerc 0 (1/100) (9999/100))))
      = (2/5, 1/10000, 5999/10000) ∧
    getRGB (rebalance Channel.R 40 (rebalance Channel.R 40 (setPerc 0 (1/100) (9999/100))))
      ≠ getRGB (rebalance Channel.R 40 (setPerc 0 (1/100) (9999/100))) := by
  norm_num [getRGB, rebalance, setPerc, rebalanceCalc, rebalAux, norm3p, clamp01p,
    round2, round_eq]

/-- C9 (amended): the rebalance computation itself is idempotent in exact
arithmetic: for every non-negative prior triple, feeding the exact published
percentages back through the algorithm with the same (channel, value)
reproduces them identically. (The deviation exhibited by the counterexample
comes only from the two-decimal toFixed(2) rounding of the field display that
the second call reads back.) -/
theorem rebalanceCalc_idem (c : Channel) (v r g b : ℚ)
    (hr : 0 ≤ r) (hg : 0 ≤ g) (hb : 0 ≤ b) :
    rebalanceCalc c v (rebalanceCalc c v r g b).1 (rebalanceCalc c v r g b).2.1
      (rebalanceCalc c v r g b).2.2 = rebalanceCalc c v r g b := by
  obtain ⟨hn1, hn2, hn3⟩ := norm3p_nonneg hr hg hb
  cases c with
  | R =>
    obtain ⟨hA, hB, hor⟩ := rebalAux_cases (clamp01p v) (norm3p r g b).2.1
      (norm3p r g b).2.2 hn2 hn3 (clamp01p_le v)
    have hfirst : rebalanceCalc Channel.R v r g b
        = (clamp01p v,
           (rebalAux (clamp01p v) (norm3p r g b).2.1 (norm3p r g b).2.2).1,
           (rebalAux (clamp01p v) (norm3p r g b).2.1 (norm3p r g b).2.2).2) := rfl
    rw [hfirst]
    exact second_call_R v _ _ hA hB hor
  | G =>
    obtain ⟨hA, hB, hor⟩ := rebalAux_cases (clamp01p v) (norm3p r g b).1
      (norm3p r g b).2.2 hn1 hn3 (clamp01p_le v)
    have hfirst : rebalanceCalc Channel.G v r g b
        = ((rebalAux (clamp01p v) (norm3p r g b).1 (norm3p r g b).2.2).1,
           clamp01p v,
           (rebalAux (clamp01p v) (norm3p r g b).1 (norm3p r g b).2.2).2) := rfl
    rw [hfirst]
    exact second_call_G v _ _ hA hB hor
  | B =>
    obtain ⟨hA, hB, hor⟩ := rebalAux_cases (clamp01p v) (norm3p r g b).1
      (norm3p r g b).2.1 hn1 hn2 (clamp01p_le v)
    have hfirst : rebalanceCalc Channel.B v r g b
        = ((rebalAux (clamp01p v) (norm3p r g b).1 (norm3p r g b).2.1).1,
           (rebalAux (clamp01p v) (norm3p r g b).1 (norm3p r g b).2.1).2,
           clamp01p v) := rfl
    rw [hfirst]
    exact second_call_B v _ _ hA hB hor

/-- C9 witness: idempotence of the exact computation at the concrete state
(0, 0, 100) with edit ('R', 50). -/
theorem rebalanceCalc_idem_witness :
    (0:ℚ) ≤ 0 ∧ (0:ℚ) ≤ 100 ∧
    rebalanceCalc Channel.R 50 (rebalanceCalc Channel.R 50 0 0 100).1
      (rebalanceCalc Channel.R 50 0 0 100).2.1 (rebalanceCalc Channel.R 50 0 0 100).2.2
      = rebalanceCalc Channel.R 50 0 0 100 :=
  ⟨le_refl 0, by norm_num,
   rebalanceCalc_idem Channel.R 50 0 0 100 (le_refl 0) (le_refl 0) (by norm_num)⟩


/-- C6: for every non-degenerate triangle (signed area of its vertices
nonzero) and every point strictly inside it (inside with the default
tolerance), computing the barycentric weights and then re-deriving the point
as the weighted combination w1*A + w2*B + w3*C of the three vertices (the
drawFromRGB recombination) reproduces the original point exactly, since the
embedding works in exact rational arithmetic. -/
theorem bary_roundtrip (px py : ℚ) (A B C : ℚ × ℚ)
    (hd : area A.1 A.2 B.1 B.2 C.1 C.2 ≠ 0)
    (hin : inside (barycentric px py A B C) insideTol = true) :
    recombine (barycentric px py A B C) A B C = (px, py) := by
  obtain ⟨a1, a2⟩ := A
  obtain ⟨b1, b2⟩ := B
  obtain ⟨c1, c2⟩ := C
  simp only [recombine, barycentric, area] at hd ⊢
  rw [Prod.mk.injEq]
  constructor
  · field_simp
    ring
  · field_simp
    ring

/-- C6 witness: the round-trip at the triangle top (50,0), left (0,100),
right (100,100) and its centroid (50, 200/3). -/
theorem bary_roundtrip_witness :
    area 50 0 0 100 100 100 ≠ 0 ∧
    inside (barycentric 50 (200/3) (50, 0) (0, 100) (100, 100)) insideTol = true ∧
    recombine (barycentric 50 (200/3) (50, 0) (0, 100) (100, 100)) (50, 0) (0, 100) (100, 100)
      = (50, 200/3) :=
  ⟨by norm_num [area],
   by norm_num [inside, insideTol, barycentric, area],
   bary_roundtrip 50 (200/3) (50, 0) (0, 100) (100, 100)
     (by norm_num [area]) (by norm_num [inside, insideTol, barycentric, area])⟩

/-- C7: for every image buffer of width w and height h in which no pixel has
alpha at or above the threshold 30, the vertex locator returns, without any
failure, the canonical fallback triangle top (w/2, 0), left (0, h-1),
right (w-1, h-1) spanning the image bounds. -/
theorem detect_fallback_all_transparent (data : ℕ → ℕ) (w h : ℕ)
    (halpha : ∀ x y, x < w → y < h → data ((y * w + x) * 4 + 3) < 30) :
    detectVerticesByAlpha data w h
      = { top := ((w : ℚ) / 2, 0), left := (0, (h : ℚ) - 1),
          right := ((w : ℚ) - 1, (h : ℚ) - 1) } := by
  unfold detectVerticesByAlpha
  rw [if_pos (pixelPts_nil data w h halpha)]

/-- C7 witness: the fallback triangle of an all-transparent 4 by 3 buffer. -/
theorem detect_fallback_all_transparent_witness :
    (∀ x y, x < 4 → y < 3 → (fun _ => (0 : ℕ)) ((y * 4 + x) * 4 + 3) < 30) ∧
    detectVerticesByAlpha (fun _ => 0) 4 3
      = { top := (2, 0), left := (0, 2), right := (3, 2) } := by
  refine ⟨fun x y hx hy => by norm_num, ?_⟩
  rw [detect_fallback_all_transparent (fun _ => 0) 4 3 (fun x y hx hy => by norm_num)]
  norm_num [Tri.mk.injEq, Prod.ext_iff]

/-- C8: for every image buffer with at least one pixel at or above the alpha
threshold (collected points nonempty), extVal is exactly the minimum y /
minimum x / maximum x over the collected points (bounded and attained), and:
the returned top vertex is a collected point within ±3px of the minimum y
whose x-distance to that band's mean x is least; the left vertex is a point
within ±3px of the minimum x with the largest y in that band; and the right
vertex is a point within ±3px of the maximum x with the largest y in that
band. -/
theorem detect_extremal_selection (data : ℕ → ℕ) (w h : ℕ)
    (hne : pixelPts data w h ≠ []) :
    (∀ p ∈ pixelPts data w h, extVal true Axis.y (pixelPts data w h) ≤ p.2) ∧
    (∃ p ∈ pixelPts data w h, extVal true Axis.y (pixelPts data w h) = p.2) ∧
    (∀ p ∈ pixelPts data w h, extVal true Axis.x (pixelPts data w h) ≤ p.1) ∧
    (∃ p ∈ pixelPts data w h, extVal true Axis.x (pixelPts data w h) = p.1) ∧
    (∀ p ∈ pixelPts data w h, p.1 ≤ extVal false Axis.x (pixelPts data w h)) ∧
    (∃ p ∈ pixelPts data w h, extVal false Axis.x (pixelPts data w h) = p.1) ∧
    (∃ p, p ∈ band Axis.y true (pixelPts data w h) ∧
      (detectVerticesByAlpha data w h).top = ((p.1 : ℚ), (p.2 : ℚ)) ∧
      ∀ q ∈ band Axis.y true (pixelPts data w h),
        |(p.1 : ℚ) - bandMeanX (band Axis.y true (pixelPts data w h))|
          ≤ |(q.1 : ℚ) - bandMeanX (band Axis.y true (pixelPts data w h))|) ∧
    (∃ p, p ∈ band Axis.x true (pixelPts data w h) ∧
      (detectVerticesByAlpha data w h).left = ((p.1 : ℚ), (p.2 : ℚ)) ∧
      ∀ q ∈ band Axis.x true (pixelPts data w h), q.2 ≤ p.2) ∧
    (∃ p, p ∈ band Axis.x false (pixelPts data w h) ∧
      (detectVerticesByAlpha data w h).right = ((p.1 : ℚ), (p.2 : ℚ)) ∧
      ∀ q ∈ band Axis.x false (pixelPts data w h), q.2 ≤ p.2) := by
  have hdet : detectVerticesByAlpha data w h
      = { top := extreme w h (pixelPts data w h) Axis.y true,
          left := extreme w h (pixelPts data w h) Axis.x true,
          right := extreme w h (pixelPts data w h) Axis.x false } := by
    unfold detectVerticesByAlpha
    rw [if_neg hne]
  obtain ⟨p0, rest, hpts⟩ := List.exists_cons_of_ne_nil hne
  rw [hdet, hpts]
  exact ⟨extVal_min_bound Axis.y p0 rest,
    extVal_attained true Axis.y p0 rest,
    extVal_min_bound Axis.x p0 rest,
    extVal_attained true Axis.x p0 rest,
    extVal_max_bound Axis.x p0 rest,
    extVal_attained false Axis.x p0 rest,
    extreme_y_spec w h p0 rest,
    extreme_x_spec w h true p0 rest,
    extreme_x_spec w h false p0 rest⟩

/-- C8 witness: the selection theorem applied to an all-opaque 2 by 2
buffer, whose collected-point list is nonempty. -/
theorem detect_extremal_selection_witness :
    pixelPts (fun _ => 255) 2 2 ≠ [] ∧
    ∀ p ∈ pixelPts (fun _ => 255) 2 2,
      extVal true Axis.y (pixelPts (fun _ => 255) 2 2) ≤ p.2 :=
  ⟨by decide, (detect_extremal_selection (fun _ => 255) 2 2 (by decide)).1⟩

end Entrada